import Mathlib

set_option maxHeartbeats 1000000
set_option maxRecDepth 4096

/-!
Shallow embedding of the name-resolution cascade in src/code.py:
the name normalizer (clean_scientific_name, extract_genus), the
match-service client boundary (query_ott_tnrs, modelled as an oracle
function), the result processing (process_tnrs_results) and the
three-stage cascade with its final fix-up pass.  Python strings are
modelled as List Char; Python dicts keyed by strings as association
lists with dict semantics; a service failure (transport error, bad
status, unparseable body) is the none response; a Python KeyError is
modelled by the Except error value.
-/

/-- ASCII whitespace as recognised by Python str.strip and regex
backslash-s; the names this pipeline handles are ASCII. -/
def pySpace (c : Char) : Bool :=
  c == ' ' || c == '\t' || c == '\n' || c == '\r' || c == '\x0b' || c == '\x0c'

/-- A Python string value. -/
abbrev PyStr := List Char

/-- Leading-whitespace removal (the front half of str.strip). -/
def dropLead (l : PyStr) : PyStr := l.dropWhile pySpace

/-- Trailing-whitespace removal (the back half of str.strip). -/
def dropTrail : PyStr → PyStr
  | [] => []
  | c :: rest =>
    match dropTrail rest with
    | [] => if pySpace c then [] else [c]
    | r => c :: r

/-- Python str.strip(): remove leading and trailing whitespace. -/
def stripL (l : PyStr) : PyStr := dropTrail (dropLead l)

/-- ASCII uppercase letter test (regex class A-Z). -/
def isUpperA (c : Char) : Bool := decide ('A' ≤ c) && decide (c ≤ 'Z')

/-- ASCII lowercase letter test (regex class a-z). -/
def isLowerA (c : Char) : Bool := decide ('a' ≤ c) && decide (c ≤ 'z')

/-- Matches the tail of the authority token after its capital letter:
the regex fragment in square brackets a-z, starred, followed by an
optional literal dot, anchored at the end.  The alternatives Moench and
L-dot of the source pattern are instances of the general alternative,
so the whole alternation reduces to this shape. -/
def authTail : List Char → Bool
  | [] => true
  | [c] => isLowerA c || c == '.'
  | c :: rest => isLowerA c && authTail rest

/-- Whether a whole string matches the authority-token alternation of
the regex in clean_scientific_name: a capital letter, lowercase
letters, an optional trailing dot. -/
def isAuthTok : List Char → Bool
  | [] => false
  | c :: rest => isUpperA c && authTail rest

/-- One step of the regex substitution: does the whole suffix starting
here match whitespace-plus followed by an authority token at end of
string?  The token cannot contain whitespace, so the split between the
whitespace run and the token is forced. -/
def subAuthHere (l : List Char) : Bool :=
  match l with
  | [] => false
  | c :: _ => pySpace c && isAuthTok (l.dropWhile pySpace)

/-- The regex substitution of clean_scientific_name: remove the
leftmost (hence only) match of the end-anchored authority pattern,
replacing it with the empty string.  Applied only to stripped strings,
where the end-of-line anchor coincides with end of string. -/
def subAuth : List Char → List Char
  | [] => []
  | c :: rest => if subAuthHere (c :: rest) then [] else c :: subAuth rest

/-- clean_scientific_name on an actual string: strip, remove one
trailing authority token, strip again. -/
def cleanStr (s : PyStr) : PyStr := stripL (subAuth (stripL s))

/-- A value passed to the normalizer helpers: either a Python string or
some non-string value (for which isinstance fails). -/
inductive NameInput
  | str (s : PyStr)
  | other
deriving DecidableEq

/-- clean_scientific_name from src/code.py: none for non-string input,
otherwise the stripped, authority-stripped string. -/
def clean_scientific_name : NameInput → Option PyStr
  | .str s => some (cleanStr s)
  | .other => none

/-- extract_genus from src/code.py: none for non-string input or a
string without a space character; otherwise the prefix before the
first space (split on a single space, first field). -/
def extract_genus : NameInput → Option PyStr
  | .str s => if ' ' ∈ s then some (s.takeWhile (fun c => decide (c ≠ ' '))) else none
  | .other => none

/-- Follows the spec's words, for comparison with extract_genus: the
first whitespace-delimited token of a string. -/
def specFirstToken (s : PyStr) : PyStr :=
  (s.dropWhile pySpace).takeWhile (fun c => !pySpace c)

/-- The provenance labels (Match Level strings) used by the script. -/
inductive MatchLevel
  | speciesOriginal
  | noMatchInitial
  | speciesCleaned
  | genus
  | noMatchFinalGenusFailed
  | noMatchFinal
  | processingError
deriving DecidableEq

/-- The taxon object inside a service match candidate; absent JSON keys
are none (the script reads them with dict get and a default). -/
structure Taxon where
  unique_name : Option PyStr
  synonyms : List PyStr
  ott_id : Option Nat
  rank : Option PyStr
deriving DecidableEq

/-- One ranked match candidate returned by the service for a name. -/
structure MatchCand where
  is_approximate_match : Bool
  is_synonym : Bool
  taxon : Taxon
deriving DecidableEq

/-- One per-name entry of the results array of a service response;
matchList is the matches array of the JSON. -/
structure ResultItem where
  name : PyStr
  matchList : List MatchCand
deriving DecidableEq

/-- A parsed service response body. -/
structure TnrsResponse where
  results : List ResultItem
deriving DecidableEq

/-- One resolution record of the all_results dictionary. -/
structure ResRecord where
  primaryMatchedName : Option PyStr
  synonymsField : Option PyStr
  ottId : Option Nat
  rank : Option PyStr
  matchQuery : PyStr
  matchLevel : MatchLevel
  approximateMatch : Bool
  isSynonymInput : Bool
deriving DecidableEq

/-- The all_results dictionary: an association list with unique keys,
insertion order preserved (Python dict semantics). -/
abbrev ResMap := List (PyStr × ResRecord)

/-- Dictionary lookup (none models a missing key). -/
def mget : ResMap → PyStr → Option ResRecord
  | [], _ => none
  | (k, r) :: rest, n => if k = n then some r else mget rest n

/-- Dictionary assignment: update in place if the key exists, else
append at the end (Python dict insertion order). -/
def mset : ResMap → PyStr → ResRecord → ResMap
  | [], n, r => [(n, r)]
  | (k, r0) :: rest, n, r => if k = n then (n, r) :: rest else (k, r0) :: mset rest n r

/-- First-match association-list lookup. -/
def lookupA {α : Type} : List (PyStr × α) → PyStr → Option α
  | [], _ => none
  | (k, v) :: rest, n => if k = n then some v else lookupA rest n

/-- The external service as an oracle: given the index of the call and
the queried name list, it returns a parsed response or none, the
uniform failure of query_ott_tnrs (transport error, bad status,
undecodable body). -/
abbrev Svc := Nat → List PyStr → Option TnrsResponse

/-- The cascade's mutable context: the results dictionary, the trace of
name lists actually sent to the service, and the call counter. -/
structure CascadeSt where
  m : ResMap
  calls : List (List PyStr)
  ctr : Nat
deriving DecidableEq

/-- query_ott_tnrs from src/code.py: an empty name list short-circuits
to none without contacting the service; otherwise the call is issued
and its (possibly failed) response returned. -/
def query_ott_tnrs (svc : Svc) (st : CascadeSt) (q : List PyStr) :
    Option TnrsResponse × CascadeSt :=
  match q with
  | [] => (none, st)
  | _ => (svc st.ctr q, { m := st.m, calls := st.calls ++ [q], ctr := st.ctr + 1 })

/-- Python string join with a semicolon-space separator. -/
def joinSemi : List PyStr → PyStr
  | [] => []
  | [s] => s
  | s :: rest => s ++ ';' :: ' ' :: joinSemi rest

/-- The record built from the top-ranked candidate of a response item
(lines 66 to 75 of src/code.py). -/
def recordFromMatch (mc : MatchCand) (q : PyStr) (lvl : MatchLevel) : ResRecord :=
  { primaryMatchedName := mc.taxon.unique_name
    synonymsField := some (joinSemi mc.taxon.synonyms)
    ottId := mc.taxon.ott_id
    rank := mc.taxon.rank
    matchQuery := q
    matchLevel := lvl
    approximateMatch := mc.is_approximate_match
    isSynonymInput := mc.is_synonym }

/-- The all-absent placeholder written for a zero-candidate name in the
original stage (lines 77 to 81 of src/code.py). -/
def placeholderRecord (q : PyStr) : ResRecord :=
  { primaryMatchedName := none
    synonymsField := none
    ottId := none
    rank := none
    matchQuery := q
    matchLevel := MatchLevel.noMatchInitial
    approximateMatch := false
    isSynonymInput := false }

/-- query_map.get of the response name with the name itself as default;
a missing query_map argument (and, equivalently on lookup, an empty
dict) leaves the name unmapped. -/
def qmapGet (qm : Option (List (PyStr × PyStr))) (q : PyStr) : PyStr :=
  match qm with
  | none => q
  | some l => (lookupA l q).getD q

/-- The update guard of process_tnrs_results: the target is absent from
the dictionary, or its record has no OTT ID yet. -/
def shouldUpdate (m : ResMap) (target : PyStr) : Bool :=
  match mget m target with
  | none => true
  | some r => decide (r.ottId = none)

/-- Processing of one response item by process_tnrs_results. -/
def processItem (lvl : MatchLevel) (qm : Option (List (PyStr × PyStr)))
    (m : ResMap) (item : ResultItem) : ResMap :=
  let target := qmapGet qm item.name
  if shouldUpdate m target then
    match item.matchList with
    | mc :: _ => mset m target (recordFromMatch mc item.name lvl)
    | [] =>
      if lvl = MatchLevel.speciesOriginal ∧ mget m target = none then
        mset m target (placeholderRecord item.name)
      else m
  else m

/-- process_tnrs_results from src/code.py: a none (failed or shapeless)
response leaves the dictionary untouched; otherwise the items are
folded over it in order. -/
def process_tnrs_results (resp : Option TnrsResponse) (m : ResMap)
    (lvl : MatchLevel) (qm : Option (List (PyStr × PyStr))) : ResMap :=
  match resp with
  | none => m
  | some r => r.results.foldl (processItem lvl qm) m

/-- The configured batch-size limit. -/
def BATCH_SIZE : Nat := 200

/-- Fuelled worker for the batch split; the fuel is an upper bound on
the number of batches (the list length suffices). -/
def chunksGo : Nat → List PyStr → List (List PyStr)
  | _, [] => []
  | 0, _ => []
  | fuel + 1, l => l.take BATCH_SIZE :: chunksGo fuel (l.drop BATCH_SIZE)

/-- The stage-1 batch split: slices of at most BATCH_SIZE names, in
order (the range loop of line 120 of src/code.py). -/
def batchChunks (l : List PyStr) : List (List PyStr) := chunksGo l.length l

/-- One stage-1 batch: issue the call and fold the response into the
dictionary at the original-species level, with no query map. -/
def stage1Step (svc : Svc) (st : CascadeSt) (batch : List PyStr) : CascadeSt :=
  let p := query_ott_tnrs svc st batch
  { m := process_tnrs_results p.1 p.2.m MatchLevel.speciesOriginal none
    calls := p.2.calls
    ctr := p.2.ctr }

/-- Stage 1 of the cascade: query every batch of original names. -/
def stage1 (svc : Svc) (names : List PyStr) (st : CascadeSt) : CascadeSt :=
  (batchChunks names).foldl (stage1Step svc) st

/-- The failure set of line 126 of src/code.py: names with no record or
with an absent OTT ID (this form guards the missing-key case). -/
def failedOf (m : ResMap) (names : List PyStr) : List PyStr :=
  names.filter (fun n =>
    match mget m n with
    | none => true
    | some r => decide (r.ottId = none))

/-- The failure-set recomputations of lines 145 and 186 of src/code.py:
a plain dictionary subscript per name, so a name without a record
raises KeyError, modelled as the error outcome. -/
def recomputeFailed (m : ResMap) : List PyStr → Except Unit (List PyStr)
  | [] => Except.ok []
  | n :: rest =>
    match mget m n with
    | none => Except.error ()
    | some r =>
      match recomputeFailed m rest with
      | Except.error e => Except.error e
      | Except.ok tail => Except.ok (if r.ottId = none then n :: tail else tail)

/-- One iteration of the stage-2 accumulation loop (lines 134 to 138 of
src/code.py): append the pair of cleaned form and original name when
the cleaned form is truthy (non-empty) and differs from the original. -/
def cleanAccStep (acc : List (PyStr × PyStr)) (n : PyStr) : List (PyStr × PyStr) :=
  match clean_scientific_name (NameInput.str n) with
  | some c => if c ≠ [] ∧ c ≠ n then acc ++ [(c, n)] else acc
  | none => acc

/-- The stage-2 accumulation loop as the list of pairs of cleaned form
and original name, in iteration order. -/
def cleanedPairsList (failed : List PyStr) : List (PyStr × PyStr) :=
  failed.foldl cleanAccStep []

/-- cleaned_names_map of src/code.py: assignment in iteration order
with overwrite, so a lookup must find the latest entry; reversing the
pair list and taking the first match models that. -/
def cleaned_names_map (failed : List PyStr) : List (PyStr × PyStr) :=
  (cleanedPairsList failed).reverse

/-- Fuelled worker modelling the Python set conversion of the cleaned
query list, as first-occurrence deduplication (the set's iteration
order is unspecified; only membership matters downstream). -/
def setListGo : Nat → List PyStr → List PyStr
  | _, [] => []
  | 0, _ => []
  | fuel + 1, a :: rest => a :: setListGo fuel (rest.filter (fun x => decide (x ≠ a)))

/-- list of set of the cleaned query names (line 140 of src/code.py). -/
def setList (l : List PyStr) : List PyStr := setListGo l.length l

/-- Stage 2 of the cascade (lines 130 to 146 of src/code.py).  Skipped
when the failure set is empty.  Returns the state (with any call it
made) and either the recomputed failure set or the KeyError outcome of
line 145. -/
def stage2 (svc : Svc) (failed1 : List PyStr) (st : CascadeSt) :
    CascadeSt × Except Unit (List PyStr) :=
  if failed1 = [] then (st, Except.ok [])
  else
    let pairs := cleanedPairsList failed1
    let namesToQuery := pairs.map Prod.fst
    let st2 :=
      if namesToQuery = [] then st
      else
        let p := query_ott_tnrs svc st (setList namesToQuery)
        { m := process_tnrs_results p.1 p.2.m MatchLevel.speciesCleaned
            (some (cleaned_names_map failed1))
          calls := p.2.calls
          ctr := p.2.ctr }
    (st2, recomputeFailed st2.m failed1)

/-- Append a name to the genus buckets, creating the bucket on first
sight (lines 158 to 160 of src/code.py); keys stay unique. -/
def gmapAppend : List (PyStr × List PyStr) → PyStr → PyStr → List (PyStr × List PyStr)
  | [], g, n => [(g, [n])]
  | (k, l) :: rest, g, n =>
    if k = g then (k, l ++ [n]) :: rest else (k, l) :: gmapAppend rest g n

/-- The stage-3 accumulation loop (lines 153 to 160 of src/code.py):
the deduplicated genus query list, in first-occurrence order, and the
genus-to-original-names buckets.  A falsy (empty or absent) genus is
skipped. -/
def genusAccum (failed : List PyStr) : List PyStr × List (PyStr × List PyStr) :=
  failed.foldl (fun acc n =>
    match extract_genus (NameInput.str n) with
    | none => acc
    | some g =>
      if g = [] then acc
      else ((if g ∈ acc.1 then acc.1 else acc.1 ++ [g]), gmapAppend acc.2 g n)) ([], [])

/-- The rank allow-list of line 173 of src/code.py. -/
def rankAllowList : List PyStr :=
  ["genus".toList, "family".toList, "order".toList, "class".toList,
   "phylum".toList, "kingdom".toList]

/-- ASCII lowercasing of one character (Python str.lower on the rank
strings this script compares, which are ASCII). -/
def charLower (c : Char) : Char :=
  if isUpperA c then Char.ofNat (c.toNat + 32) else c

/-- ASCII lowercasing of a string. -/
def lowerName (s : PyStr) : PyStr := s.map charLower

/-- The genus-stage acceptance test: the taxon rank, defaulted to the
empty string and lowercased, is in the allow-list. -/
def rankOkB (t : Taxon) : Bool :=
  decide (lowerName (t.rank.getD []) ∈ rankAllowList)

/-- The record written for an accepted genus-stage match (lines 174 to
179 of src/code.py): the match query is the genus string and the level
is the genus label. -/
def genusRecordOf (mc : MatchCand) (g : PyStr) : ResRecord :=
  { primaryMatchedName := mc.taxon.unique_name
    synonymsField := some (joinSemi mc.taxon.synonyms)
    ottId := mc.taxon.ott_id
    rank := mc.taxon.rank
    matchQuery := g
    matchLevel := MatchLevel.genus
    approximateMatch := mc.is_approximate_match
    isSynonymInput := mc.is_synonym }

/-- The inner loop over the original names of one genus (lines 168 to
181 of src/code.py).  Each original name's record is read with a plain
subscript, so a missing record is a KeyError.  With a candidate of an
allowed rank the record is replaced; with zero candidates only the
match-level field is set to the genus-failed label. -/
def applyGenusTargets (g : PyStr) (cands : List MatchCand) :
    ResMap → List PyStr → Except Unit ResMap
  | m, [] => Except.ok m
  | m, t :: rest =>
    match mget m t with
    | none => Except.error ()
    | some r =>
      let m2 :=
        if r.ottId = none then
          match cands with
          | mc :: _ => if rankOkB mc.taxon then mset m t (genusRecordOf mc g) else m
          | [] => mset m t { r with matchLevel := MatchLevel.noMatchFinalGenusFailed }
        else m
      applyGenusTargets g cands m2 rest

/-- The loop over the items of the genus response (lines 164 to 181 of
src/code.py); items whose name is not a known genus key are skipped. -/
def processGenusItems (gmap : List (PyStr × List PyStr)) :
    ResMap → List ResultItem → Except Unit ResMap
  | m, [] => Except.ok m
  | m, item :: rest =>
    match (match lookupA gmap item.name with
           | some targets => applyGenusTargets item.name item.matchList m targets
           | none => Except.ok m) with
    | Except.error e => Except.error e
    | Except.ok m2 => processGenusItems gmap m2 rest

/-- The terminal-label pass of lines 187 to 189 of src/code.py: every
still-failed name whose level is neither the genus label nor the
genus-failed label becomes a final no-match. -/
def finalizeNoMatch (m : ResMap) : List PyStr → Except Unit ResMap
  | [] => Except.ok m
  | n :: rest =>
    match mget m n with
    | none => Except.error ()
    | some r =>
      let m2 :=
        if r.matchLevel = MatchLevel.genus ∨ r.matchLevel = MatchLevel.noMatchFinalGenusFailed
        then m
        else mset m n { r with matchLevel := MatchLevel.noMatchFinal }
      finalizeNoMatch m2 rest

/-- The query-and-process part of stage 3 (lines 161 to 182 of
src/code.py): skipped when no genus was extracted; a failed response
skips the item loop (the guard of line 163); otherwise the items are
processed, possibly hitting a KeyError. -/
def stage3Query (svc : Svc) (failed2 : List PyStr) (st : CascadeSt) :
    CascadeSt × Except Unit ResMap :=
  let acc := genusAccum failed2
  if acc.1 = [] then (st, Except.ok st.m)
  else
    let p := query_ott_tnrs svc st acc.1
    match p.1 with
    | none => (p.2, Except.ok p.2.m)
    | some rd => (p.2, processGenusItems acc.2 p.2.m rd.results)

/-- The tail of stage 3 (lines 186 to 189 of src/code.py): the
failure-set recomputation and the terminal-label pass, each able to
raise a KeyError. -/
def stage3Rest (st2 : CascadeSt) (failed2 : List PyStr) (m3 : ResMap) :
    CascadeSt × Except Unit Unit :=
  match recomputeFailed m3 failed2 with
  | Except.error e => ({ m := m3, calls := st2.calls, ctr := st2.ctr }, Except.error e)
  | Except.ok failed3 =>
    match finalizeNoMatch m3 failed3 with
    | Except.error e => ({ m := m3, calls := st2.calls, ctr := st2.ctr }, Except.error e)
    | Except.ok m4 => ({ m := m4, calls := st2.calls, ctr := st2.ctr }, Except.ok ())

/-- Stage 3 of the cascade (lines 149 to 190 of src/code.py): the genus
query, the per-item processing, the failure-set recomputation of line
186 and the terminal-label pass. -/
def stage3 (svc : Svc) (failed2 : List PyStr) (st : CascadeSt) :
    CascadeSt × Except Unit Unit :=
  if failed2 = [] then (st, Except.ok ())
  else
    match stage3Query svc failed2 st with
    | (st2, Except.error e) => (st2, Except.error e)
    | (st2, Except.ok m3) => stage3Rest st2 failed2 m3

/-- The guard record of lines 200 to 203 of src/code.py for a name that
somehow never received a record. -/
def processingErrorRecord (n : PyStr) : ResRecord :=
  { primaryMatchedName := none
    synonymsField := none
    ottId := none
    rank := none
    matchQuery := n
    matchLevel := MatchLevel.processingError
    approximateMatch := false
    isSynonymInput := false }

/-- One iteration of the final fix-up pass (lines 199 to 205 of
src/code.py): create a processing-error record for a missing name;
upgrade a no-match-initial record without an OTT ID to the final
no-match label. -/
def fixupStep (m : ResMap) (n : PyStr) : ResMap :=
  match mget m n with
  | none => mset m n (processingErrorRecord n)
  | some r =>
    if r.ottId = none ∧ r.matchLevel = MatchLevel.noMatchInitial
    then mset m n { r with matchLevel := MatchLevel.noMatchFinal }
    else m

/-- The final fix-up pass over all unique names (lines 198 to 205 of
src/code.py). -/
def fixupLoop (m : ResMap) : List PyStr → ResMap
  | [] => m
  | n :: rest => fixupLoop (fixupStep m n) rest

/-- The empty starting context of a run. -/
def initSt : CascadeSt := { m := [], calls := [], ctr := 0 }

/-- The stage-1 output of a run, from the empty context. -/
def st1Of (svc : Svc) (names : List PyStr) : CascadeSt := stage1 svc names initSt

/-- The whole cascade of src/code.py over the distinct input names:
stage 1, the stage-2 and stage-3 fallbacks (each skipped when the
failure set is empty, exactly as the source's emptiness guards), and
the final fix-up (which the source skips when the dictionary is empty).
The data-frame emptiness guard of line 195 is subsumed: a non-empty
name list implies a non-empty data frame in the source.  The result is
the trace of issued service calls together with either the final
dictionary or the KeyError outcome. -/
def runCascade (svc : Svc) (names : List PyStr) :
    List (List PyStr) × Except Unit ResMap :=
  if names = [] then ([], Except.ok [])
  else
    let st1 := st1Of svc names
    let failed1 := failedOf st1.m names
    match stage2 svc failed1 st1 with
    | (st2, Except.error e) => (st2.calls, Except.error e)
    | (st2, Except.ok failed2) =>
      match stage3 svc failed2 st2 with
      | (st3, Except.error e) => (st3.calls, Except.error e)
      | (st3, Except.ok _) =>
        (st3.calls, Except.ok (if st3.m = [] then st3.m else fixupLoop st3.m names))

/-- The per-name contribution of the stage-2 accumulation loop: the
pair of cleaned form and original name when the name qualifies for a
cleaned re-query. -/
def cleanPairOf (n : PyStr) : Option (PyStr × PyStr) :=
  match clean_scientific_name (NameInput.str n) with
  | some c => if c ≠ [] ∧ c ≠ n then some (c, n) else none
  | none => none

/-- Whether a failed name's cleaned form qualifies for a stage-2 query
and equals the given cleaned string. -/
def producesCleaned (c n : PyStr) : Bool :=
  match clean_scientific_name (NameInput.str n) with
  | some cl => if cl ≠ [] ∧ cl ≠ n ∧ cl = c then true else false
  | none => false

/-- Occurrence count of a string in a list of strings. -/
def countN (c : PyStr) : List PyStr → Nat
  | [] => 0
  | a :: l => (if a = c then 1 else 0) + countN c l

/-- A service that is down: every call fails uniformly. -/
def svcDown : Svc := fun _ _ => none

/-- A service that answers every call with a well-formed response
carrying zero candidates for every queried name. -/
def svcEcho0 : Svc := fun _ q =>
  some { results := q.map (fun n => { name := n, matchList := [] }) }

/-- The two-letter name used in the concrete runs. -/
def nAb : PyStr := ['A', 'b']

/-- A name whose cleaned form differs from it. -/
def nAbXx : PyStr := "Ab Xx".toList

/-- The record a zero-candidate single-name run ends with. -/
def recC1W : ResRecord :=
  { primaryMatchedName := none, synonymsField := none, ottId := none, rank := none,
    matchQuery := nAb, matchLevel := MatchLevel.noMatchFinal,
    approximateMatch := false, isSynonymInput := false }

/-- The final dictionary of the zero-candidate single-name run. -/
def mapC1W : ResMap := [(nAb, recC1W)]

/-- A species-rank candidate with an OTT ID, for the stage-1 match
scenarios. -/
def mcW3 : MatchCand :=
  { is_approximate_match := true, is_synonym := false,
    taxon := { unique_name := some ("Abtax".toList), synonyms := ["Syn one".toList],
               ott_id := some 5, rank := some ("species".toList) } }

/-- A service that answers every name with that single species
candidate. -/
def svcW3 : Svc := fun _ q =>
  some { results := q.map (fun n => { name := n, matchList := [mcW3] }) }

/-- The record stage 1 writes for nAb under svcW3. -/
def recW3 : ResRecord := recordFromMatch mcW3 nAb MatchLevel.speciesOriginal

/-- The final dictionary of the svcW3 single-name run. -/
def mapW3 : ResMap := [(nAb, recW3)]

/-- First of two distinct names sharing the cleaned form Aa. -/
def nAaXx5 : PyStr := "Aa Xx".toList

/-- Second of two distinct names sharing the cleaned form Aa. -/
def nAaYy5 : PyStr := "Aa Yy".toList

/-- A genus-rank candidate with an OTT ID, for the cleaned-stage hit. -/
def mc7 : MatchCand :=
  { is_approximate_match := false, is_synonym := false,
    taxon := { unique_name := some ("Aatax".toList), synonyms := [],
               ott_id := some 7, rank := some ("genus".toList) } }

/-- A service giving zero candidates at stage 1, a hit for the cleaned
string Aa at stage 2, and failing afterwards. -/
def svc5 : Svc := fun ctr q =>
  if ctr = 0 then some { results := q.map (fun n => { name := n, matchList := [] }) }
  else if ctr = 1 then some { results := [{ name := "Aa".toList, matchList := [mc7] }] }
  else none

/-- The record the first of the two names ends with under svc5: the
stage-2 hit never reached it. -/
def rec5fail : ResRecord :=
  { primaryMatchedName := none, synonymsField := none, ottId := none, rank := none,
    matchQuery := nAaXx5, matchLevel := MatchLevel.noMatchFinal,
    approximateMatch := false, isSynonymInput := false }

/-- The final dictionary of the svc5 two-name run. -/
def map5 : ResMap :=
  [(nAaXx5, rec5fail), (nAaYy5, recordFromMatch mc7 ("Aa".toList) MatchLevel.speciesCleaned)]

/-- 201 distinct three-character names, each a two-letter word followed
by a space, so each cleans (by stripping) to its distinct two-letter
prefix. -/
def names201 : List PyStr :=
  (List.range 201).map (fun i => [Char.ofNat (65 + i / 26), Char.ofNat (97 + i % 26), ' '])

/-- A three-capitalised-token name on which cleaning is not idempotent. -/
def sAaBbCc : PyStr := "Aa Bb Cc".toList

/-- A name with a classical trailing authority token. -/
def sRosa : PyStr := "Rosa alba L.".toList

/-- A string that contains a space but starts with one. -/
def spAa : PyStr := [' ', 'A', 'a']

/-- A two-token name for the genus-stage witnesses. -/
def t6 : PyStr := "Tt Uu".toList

/-- The genus string of t6. -/
def g6 : PyStr := ['T', 't']

/-- A dictionary holding only the unresolved placeholder for t6. -/
def m6 : ResMap := [(t6, placeholderRecord t6)]

/-- A family-rank candidate for the genus stage. -/
def mcFam : MatchCand :=
  { is_approximate_match := false, is_synonym := false,
    taxon := { unique_name := some ("Ttfam".toList), synonyms := [],
               ott_id := some 9, rank := some ("family".toList) } }

/-- A species-rank candidate for the genus stage. -/
def mcSpec : MatchCand :=
  { is_approximate_match := false, is_synonym := false,
    taxon := { unique_name := some ("Ttsp".toList), synonyms := [],
               ott_id := some 11, rank := some ("species".toList) } }

/-- A two-token name for the genus-failed witness. -/
def t9 : PyStr := "Vv Ww".toList

/-- The genus string of t9. -/
def g9 : PyStr := ['V', 'v']

/-- A dictionary holding only the unresolved placeholder for t9. -/
def m9 : ResMap := [(t9, placeholderRecord t9)]

/-- A plain word for the clean-function witnesses. -/
def sW10 : PyStr := ['A', 'b']

/-- The cleaned form shared by the two svc5 names. -/
def aaTok : PyStr := ['A', 'a']

/-- The second token of nAbXx. -/
def sXx : PyStr := ['X', 'x']

/-- The in-place record mutation of line 181 of src/code.py: only the
match-level field changes. -/
def genusFailedUpdate (r : ResRecord) : ResRecord :=
  { r with matchLevel := MatchLevel.noMatchFinalGenusFailed }

theorem mget_mset_self (m : ResMap) (n : PyStr) (r : ResRecord) :
    mget (mset m n r) n = some r := by
  induction m with
  | nil => simp [mget, mset]
  | cons hd tl ih =>
    obtain ⟨k, r0⟩ := hd
    by_cases hk : k = n
    · simp [mset, hk, mget]
    · simp [mset, hk, mget, ih]

theorem mget_mset_ne (m : ResMap) (n x : PyStr) (r : ResRecord) (h : n ≠ x) :
    mget (mset m n r) x = mget m x := by
  induction m with
  | nil => simp [mget, mset, h]
  | cons hd tl ih =>
    obtain ⟨k, r0⟩ := hd
    by_cases hk : k = n
    · subst hk
      simp [mset, mget, h]
    · simp [mset, hk, mget, ih]

theorem mget_mset_isSome (m : ResMap) (n x : PyStr) (r : ResRecord)
    (h : (mget m x).isSome = true) : (mget (mset m n r) x).isSome = true := by
  by_cases hx : n = x
  · subst hx
    simp [mget_mset_self]
  · rw [mget_mset_ne m n x r hx]
    exact h

theorem mget_isSome_ne_nil (m : ResMap) (n : PyStr)
    (h : (mget m n).isSome = true) : m ≠ [] := by
  intro he
  subst he
  simp [mget] at h

theorem processItem_pres (lvl : MatchLevel) (qm : Option (List (PyStr × PyStr)))
    (m : ResMap) (item : ResultItem) (n : PyStr) (r : ResRecord) (i : Nat)
    (hm : mget m n = some r) (hid : r.ottId = some i) :
    mget (processItem lvl qm m item) n = some r := by
  unfold processItem
  by_cases ht : qmapGet qm item.name = n
  · rw [ht]
    have hsu : shouldUpdate m n = false := by
      simp [shouldUpdate, hm, hid]
    simp [hsu, hm]
  · by_cases hsu : shouldUpdate m (qmapGet qm item.name) = true
    · simp only [hsu, if_true]
      cases item.matchList with
      | cons mc rest =>
        rw [mget_mset_ne _ _ _ _ ht]
        exact hm
      | nil =>
        by_cases hc : lvl = MatchLevel.speciesOriginal ∧ mget m (qmapGet qm item.name) = none
        · rw [if_pos hc, mget_mset_ne _ _ _ _ ht]
          exact hm
        · rw [if_neg hc]
          exact hm
    · simp only [Bool.not_eq_true] at hsu
      simp [hsu, hm]

theorem process_results_pres (resp : Option TnrsResponse) (m : ResMap)
    (lvl : MatchLevel) (qm : Option (List (PyStr × PyStr)))
    (n : PyStr) (r : ResRecord) (i : Nat)
    (hm : mget m n = some r) (hid : r.ottId = some i) :
    mget (process_tnrs_results resp m lvl qm) n = some r := by
  cases resp with
  | none => simpa [process_tnrs_results] using hm
  | some rd =>
    simp only [process_tnrs_results]
    induction rd.results generalizing m with
    | nil => simpa using hm
    | cons item rest ih =>
      simp only [List.foldl_cons]
      exact ih (processItem lvl qm m item) (processItem_pres lvl qm m item n r i hm hid)

theorem processItem_isSome (lvl : MatchLevel) (qm : Option (List (PyStr × PyStr)))
    (m : ResMap) (item : ResultItem) (n : PyStr)
    (hm : (mget m n).isSome = true) :
    (mget (processItem lvl qm m item) n).isSome = true := by
  simp only [processItem]
  by_cases hsu : shouldUpdate m (qmapGet qm item.name) = true
  · simp only [hsu, if_true]
    cases item.matchList with
    | cons mc rest => exact mget_mset_isSome _ _ _ _ hm
    | nil =>
      by_cases hc : lvl = MatchLevel.speciesOriginal ∧ mget m (qmapGet qm item.name) = none
      · rw [if_pos hc]
        exact mget_mset_isSome _ _ _ _ hm
      · rw [if_neg hc]
        exact hm
  · simp only [Bool.not_eq_true] at hsu
    simp [hsu, hm]

theorem process_results_isSome (resp : Option TnrsResponse) (m : ResMap)
    (lvl : MatchLevel) (qm : Option (List (PyStr × PyStr))) (n : PyStr)
    (hm : (mget m n).isSome = true) :
    (mget (process_tnrs_results resp m lvl qm) n).isSome = true := by
  cases resp with
  | none => simpa [process_tnrs_results] using hm
  | some rd =>
    simp only [process_tnrs_results]
    induction rd.results generalizing m with
    | nil => simpa using hm
    | cons item rest ih =>
      simp only [List.foldl_cons]
      exact ih (processItem lvl qm m item) (processItem_isSome lvl qm m item n hm)

theorem applyGenusTargets_pres (g : PyStr) (cands : List MatchCand)
    (ts : List PyStr) (m m2 : ResMap) (n : PyStr) (r : ResRecord) (i : Nat)
    (hm : mget m n = some r) (hid : r.ottId = some i)
    (hrun : applyGenusTargets g cands m ts = Except.ok m2) :
    mget m2 n = some r := by
  induction ts generalizing m with
  | nil =>
    simp only [applyGenusTargets] at hrun
    cases hrun
    exact hm
  | cons t rest ih =>
    simp only [applyGenusTargets] at hrun
    by_cases htn : t = n
    · subst htn
      rw [hm] at hrun
      simp only [hid] at hrun
      simp at hrun
      exact ih m hm hrun
    · cases hmt : mget m t with
      | none =>
        rw [hmt] at hrun
        cases hrun
      | some rt =>
        rw [hmt] at hrun
        simp only at hrun
        refine ih _ ?_ hrun
        by_cases hok : rt.ottId = none
        · simp only [hok, if_true] at *
          cases cands with
          | cons mc more =>
            by_cases hr : rankOkB mc.taxon = true
            · simp only [hr, if_true]
              rw [mget_mset_ne _ _ _ _ htn]
              exact hm
            · simp only [Bool.not_eq_true] at hr
              simp only [hr]
              simpa using hm
          | nil =>
            rw [mget_mset_ne _ _ _ _ htn]
            exact hm
        · simp only [hok, if_false]
          exact hm

theorem applyGenusTargets_isSome (g : PyStr) (cands : List MatchCand)
    (ts : List PyStr) (m m2 : ResMap) (n : PyStr)
    (hm : (mget m n).isSome = true)
    (hrun : applyGenusTargets g cands m ts = Except.ok m2) :
    (mget m2 n).isSome = true := by
  induction ts generalizing m with
  | nil =>
    simp only [applyGenusTargets] at hrun
    cases hrun
    exact hm
  | cons t rest ih =>
    simp only [applyGenusTargets] at hrun
    cases hmt : mget m t with
    | none =>
      rw [hmt] at hrun
      cases hrun
    | some rt =>
      rw [hmt] at hrun
      simp only at hrun
      refine ih _ ?_ hrun
      by_cases hok : rt.ottId = none
      · simp only [hok, if_true]
        cases cands with
        | cons mc more =>
          by_cases hr : rankOkB mc.taxon = true
          · simp only [hr, if_true]
            exact mget_mset_isSome _ _ _ _ hm
          · simp only [Bool.not_eq_true] at hr
            simpa [hr] using hm
        | nil => exact mget_mset_isSome _ _ _ _ hm
      · simpa [hok] using hm

theorem processGenusItems_pres (gmap : List (PyStr × List PyStr))
    (items : List ResultItem) (m m2 : ResMap) (n : PyStr) (r : ResRecord) (i : Nat)
    (hm : mget m n = some r) (hid : r.ottId = some i)
    (hrun : processGenusItems gmap m items = Except.ok m2) :
    mget m2 n = some r := by
  induction items generalizing m with
  | nil =>
    simp only [processGenusItems] at hrun
    cases hrun
    exact hm
  | cons item rest ih =>
    simp only [processGenusItems] at hrun
    cases hl : lookupA gmap item.name with
    | none =>
      rw [hl] at hrun
      simp only at hrun
      exact ih m hm hrun
    | some targets =>
      rw [hl] at hrun
      simp only at hrun
      cases hstep : applyGenusTargets item.name item.matchList m targets with
      | error e =>
        rw [hstep] at hrun
        cases hrun
      | ok mStep =>
        rw [hstep] at hrun
        simp only at hrun
        exact ih mStep (applyGenusTargets_pres _ _ _ _ _ _ _ _ hm hid hstep) hrun

theorem processGenusItems_isSome (gmap : List (PyStr × List PyStr))
    (items : List ResultItem) (m m2 : ResMap) (n : PyStr)
    (hm : (mget m n).isSome = true)
    (hrun : processGenusItems gmap m items = Except.ok m2) :
    (mget m2 n).isSome = true := by
  induction items generalizing m with
  | nil =>
    simp only [processGenusItems] at hrun
    cases hrun
    exact hm
  | cons item rest ih =>
    simp only [processGenusItems] at hrun
    cases hl : lookupA gmap item.name with
    | none =>
      rw [hl] at hrun
      simp only at hrun
      exact ih m hm hrun
    | some targets =>
      rw [hl] at hrun
      simp only at hrun
      cases hstep : applyGenusTargets item.name item.matchList m targets with
      | error e =>
        rw [hstep] at hrun
        cases hrun
      | ok mStep =>
        rw [hstep] at hrun
        simp only at hrun
        exact ih mStep (applyGenusTargets_isSome _ _ _ _ _ _ hm hstep) hrun

theorem finalizeNoMatch_frame (ns : List PyStr) (m m2 : ResMap) (n : PyStr)
    (hn : n ∉ ns) (hrun : finalizeNoMatch m ns = Except.ok m2) :
    mget m2 n = mget m n := by
  induction ns generalizing m with
  | nil =>
    simp only [finalizeNoMatch] at hrun
    cases hrun
    rfl
  | cons x rest ih =>
    simp only [List.mem_cons, not_or] at hn
    simp only [finalizeNoMatch] at hrun
    cases hmx : mget m x with
    | none =>
      rw [hmx] at hrun
      cases hrun
    | some rx =>
      rw [hmx] at hrun
      simp only at hrun
      by_cases hlv : rx.matchLevel = MatchLevel.genus ∨ rx.matchLevel = MatchLevel.noMatchFinalGenusFailed
      · rw [if_pos hlv] at hrun
        exact ih _ hn.2 hrun
      · rw [if_neg hlv] at hrun
        rw [ih _ hn.2 hrun]
        exact mget_mset_ne _ _ _ _ (fun he => hn.1 he.symm)

theorem finalizeNoMatch_isSome (ns : List PyStr) (m m2 : ResMap) (n : PyStr)
    (hm : (mget m n).isSome = true) (hrun : finalizeNoMatch m ns = Except.ok m2) :
    (mget m2 n).isSome = true := by
  induction ns generalizing m with
  | nil =>
    simp only [finalizeNoMatch] at hrun
    cases hrun
    exact hm
  | cons x rest ih =>
    simp only [finalizeNoMatch] at hrun
    cases hmx : mget m x with
    | none =>
      rw [hmx] at hrun
      cases hrun
    | some rx =>
      rw [hmx] at hrun
      simp only at hrun
      by_cases hlv : rx.matchLevel = MatchLevel.genus ∨ rx.matchLevel = MatchLevel.noMatchFinalGenusFailed
      · rw [if_pos hlv] at hrun
        exact ih _ hm hrun
      · rw [if_neg hlv] at hrun
        exact ih _ (mget_mset_isSome _ _ _ _ hm) hrun

theorem fixupStep_pres (m : ResMap) (x n : PyStr) (r : ResRecord) (i : Nat)
    (hm : mget m n = some r) (hid : r.ottId = some i) :
    mget (fixupStep m x) n = some r := by
  unfold fixupStep
  by_cases hxn : x = n
  · subst hxn
    rw [hm]
    simp only
    have hneg : ¬(r.ottId = none ∧ r.matchLevel = MatchLevel.noMatchInitial) := by
      intro hc
      rw [hid] at hc
      exact Option.some_ne_none i hc.1
    rw [if_neg hneg]
    exact hm
  · cases hmx : mget m x with
    | none =>
      simp only
      rw [mget_mset_ne _ _ _ _ hxn]
      exact hm
    | some rx =>
      simp only
      by_cases hc : rx.ottId = none ∧ rx.matchLevel = MatchLevel.noMatchInitial
      · rw [if_pos hc, mget_mset_ne _ _ _ _ hxn]
        exact hm
      · rw [if_neg hc]
        exact hm

theorem fixupStep_isSome (m : ResMap) (x n : PyStr)
    (hm : (mget m n).isSome = true) :
    (mget (fixupStep m x) n).isSome = true := by
  unfold fixupStep
  cases hmx : mget m x with
  | none =>
    simp only
    exact mget_mset_isSome _ _ _ _ hm
  | some rx =>
    simp only
    by_cases hc : rx.ottId = none ∧ rx.matchLevel = MatchLevel.noMatchInitial
    · rw [if_pos hc]
      exact mget_mset_isSome _ _ _ _ hm
    · rw [if_neg hc]
      exact hm

theorem fixupLoop_pres (ns : List PyStr) (m : ResMap) (n : PyStr) (r : ResRecord) (i : Nat)
    (hm : mget m n = some r) (hid : r.ottId = some i) :
    mget (fixupLoop m ns) n = some r := by
  induction ns generalizing m with
  | nil => simpa [fixupLoop] using hm
  | cons x rest ih =>
    simp only [fixupLoop]
    exact ih _ (fixupStep_pres m x n r i hm hid)

theorem fixupLoop_isSome (ns : List PyStr) (m : ResMap) (n : PyStr)
    (hm : (mget m n).isSome = true) :
    (mget (fixupLoop m ns) n).isSome = true := by
  induction ns generalizing m with
  | nil => simpa [fixupLoop] using hm
  | cons x rest ih =>
    simp only [fixupLoop]
    exact ih _ (fixupStep_isSome m x n hm)

theorem recomputeFailed_not_mem (l : List PyStr) (m : ResMap) (f : List PyStr)
    (n : PyStr) (r : ResRecord) (i : Nat)
    (hm : mget m n = some r) (hid : r.ottId = some i)
    (hrun : recomputeFailed m l = Except.ok f) : n ∉ f := by
  induction l generalizing f with
  | nil =>
    simp only [recomputeFailed] at hrun
    cases hrun
    simp
  | cons x rest ih =>
    simp only [recomputeFailed] at hrun
    cases hmx : mget m x with
    | none =>
      rw [hmx] at hrun
      cases hrun
    | some rx =>
      rw [hmx] at hrun
      simp only at hrun
      cases htail : recomputeFailed m rest with
      | error e =>
        rw [htail] at hrun
        cases hrun
      | ok tail =>
        rw [htail] at hrun
        simp only at hrun
        cases hrun
        by_cases hx : rx.ottId = none
        · rw [if_pos hx]
          intro hmem
          cases List.mem_cons.mp hmem with
          | inl he =>
            subst he
            rw [hm] at hmx
            cases hmx
            rw [hid] at hx
            exact Option.some_ne_none i hx
          | inr hr => exact ih tail htail hr
        · rw [if_neg hx]
          exact ih tail htail

theorem recomputeFailed_all_isSome (l : List PyStr) (m : ResMap) (f : List PyStr)
    (hrun : recomputeFailed m l = Except.ok f) :
    ∀ x ∈ l, (mget m x).isSome = true := by
  induction l generalizing f with
  | nil => simp
  | cons x rest ih =>
    simp only [recomputeFailed] at hrun
    cases hmx : mget m x with
    | none =>
      rw [hmx] at hrun
      cases hrun
    | some rx =>
      rw [hmx] at hrun
      simp only at hrun
      cases htail : recomputeFailed m rest with
      | error e =>
        rw [htail] at hrun
        cases hrun
      | ok tail =>
        intro y hy
        cases List.mem_cons.mp hy with
        | inl he =>
          subst he
          simp [hmx]
        | inr hr => exact ih tail htail y hr

theorem failedOf_not_mem_resolved (m : ResMap) (names : List PyStr) (n : PyStr)
    (hn : n ∈ names) (hf : n ∉ failedOf m names) :
    ∃ r i, mget m n = some r ∧ r.ottId = some i := by
  unfold failedOf at hf
  rw [List.mem_filter] at hf
  push_neg at hf
  have hp := hf hn
  cases hmn : mget m n with
  | none =>
    rw [hmn] at hp
    simp at hp
  | some r =>
    rw [hmn] at hp
    simp only [decide_eq_true_eq] at hp
    cases hr : r.ottId with
    | none =>
      exfalso
      apply hp
      simp [hr]
    | some i => exact ⟨r, i, rfl, hr⟩

theorem query_ott_tnrs_m (svc : Svc) (st : CascadeSt) (q : List PyStr) :
    (query_ott_tnrs svc st q).2.m = st.m := by
  cases q <;> rfl

theorem query_ott_tnrs_ne_nil (svc : Svc) (st : CascadeSt) (q : List PyStr) (h : q ≠ []) :
    query_ott_tnrs svc st q =
      (svc st.ctr q, { m := st.m, calls := st.calls ++ [q], ctr := st.ctr + 1 }) := by
  cases q with
  | nil => exact absurd rfl h
  | cons a l => rfl

theorem stage2_pres (svc : Svc) (f : List PyStr) (st : CascadeSt)
    (n : PyStr) (r : ResRecord) (i : Nat)
    (hm : mget st.m n = some r) (hid : r.ottId = some i) :
    mget (stage2 svc f st).1.m n = some r ∧
      ∀ f2, (stage2 svc f st).2 = Except.ok f2 → n ∉ f2 := by
  unfold stage2
  by_cases hf : f = []
  · rw [if_pos hf]
    refine ⟨hm, ?_⟩
    intro f2 h2
    cases h2
    simp
  · rw [if_neg hf]
    simp only
    by_cases hq : (cleanedPairsList f).map Prod.fst = []
    · rw [if_pos hq]
      refine ⟨hm, ?_⟩
      intro f2 h2
      exact recomputeFailed_not_mem f st.m f2 n r i hm hid h2
    · rw [if_neg hq]
      simp only
      have hm2 : mget (process_tnrs_results
          (query_ott_tnrs svc st (setList ((cleanedPairsList f).map Prod.fst))).1
          (query_ott_tnrs svc st (setList ((cleanedPairsList f).map Prod.fst))).2.m
          MatchLevel.speciesCleaned (some (cleaned_names_map f))) n = some r := by
        rw [query_ott_tnrs_m]
        exact process_results_pres _ _ _ _ n r i hm hid
      refine ⟨hm2, ?_⟩
      intro f2 h2
      exact recomputeFailed_not_mem f _ f2 n r i hm2 hid h2

theorem stage3Query_pres (svc : Svc) (f2 : List PyStr) (st : CascadeSt)
    (n : PyStr) (r : ResRecord) (i : Nat) (m3 : ResMap)
    (hm : mget st.m n = some r) (hid : r.ottId = some i)
    (hq : (stage3Query svc f2 st).2 = Except.ok m3) :
    mget m3 n = some r := by
  unfold stage3Query at hq
  by_cases hg : (genusAccum f2).1 = []
  · rw [if_pos hg] at hq
    simp only at hq
    cases hq
    exact hm
  · rw [if_neg hg] at hq
    simp only at hq
    rw [query_ott_tnrs_ne_nil svc st _ hg] at hq
    cases hresp : svc st.ctr (genusAccum f2).1 with
    | none =>
      rw [hresp] at hq
      simp only at hq
      cases hq
      exact hm
    | some rd =>
      rw [hresp] at hq
      simp only at hq
      exact processGenusItems_pres _ _ _ _ n r i hm hid hq

theorem stage3Query_isSome (svc : Svc) (f2 : List PyStr) (st : CascadeSt)
    (n : PyStr) (m3 : ResMap)
    (hm : (mget st.m n).isSome = true)
    (hq : (stage3Query svc f2 st).2 = Except.ok m3) :
    (mget m3 n).isSome = true := by
  unfold stage3Query at hq
  by_cases hg : (genusAccum f2).1 = []
  · rw [if_pos hg] at hq
    simp only at hq
    cases hq
    exact hm
  · rw [if_neg hg] at hq
    simp only at hq
    rw [query_ott_tnrs_ne_nil svc st _ hg] at hq
    cases hresp : svc st.ctr (genusAccum f2).1 with
    | none =>
      rw [hresp] at hq
      simp only at hq
      cases hq
      exact hm
    | some rd =>
      rw [hresp] at hq
      simp only at hq
      exact processGenusItems_isSome _ _ _ _ n hm hq

theorem stage3Rest_pres (st2 : CascadeSt) (f2 : List PyStr) (m3 : ResMap)
    (n : PyStr) (r : ResRecord) (i : Nat)
    (hm : mget m3 n = some r) (hid : r.ottId = some i)
    (hok : (stage3Rest st2 f2 m3).2 = Except.ok ()) :
    mget (stage3Rest st2 f2 m3).1.m n = some r := by
  unfold stage3Rest at *
  cases hrc : recomputeFailed m3 f2 with
  | error e =>
    rw [hrc] at hok
    simp at hok
  | ok failed3 =>
    rw [hrc] at hok
    simp only at hok ⊢
    have hnf3 : n ∉ failed3 := recomputeFailed_not_mem f2 m3 failed3 n r i hm hid hrc
    cases hfin : finalizeNoMatch m3 failed3 with
    | error e =>
      rw [hfin] at hok
      simp at hok
    | ok m4 =>
      simp only
      rw [finalizeNoMatch_frame failed3 m3 m4 n hnf3 hfin]
      exact hm

theorem stage3Rest_isSome (st2 : CascadeSt) (f2 : List PyStr) (m3 : ResMap)
    (n : PyStr)
    (hm : (mget m3 n).isSome = true)
    (hok : (stage3Rest st2 f2 m3).2 = Except.ok ()) :
    (mget (stage3Rest st2 f2 m3).1.m n).isSome = true := by
  unfold stage3Rest at *
  cases hrc : recomputeFailed m3 f2 with
  | error e =>
    rw [hrc] at hok
    simp at hok
  | ok failed3 =>
    rw [hrc] at hok
    simp only at hok ⊢
    cases hfin : finalizeNoMatch m3 failed3 with
    | error e =>
      rw [hfin] at hok
      simp at hok
    | ok m4 =>
      simp only
      exact finalizeNoMatch_isSome failed3 m3 m4 n hm hfin

theorem stage3_pres (svc : Svc) (f2 : List PyStr) (st : CascadeSt)
    (n : PyStr) (r : ResRecord) (i : Nat)
    (hm : mget st.m n = some r) (hid : r.ottId = some i)
    (hok : (stage3 svc f2 st).2 = Except.ok ()) :
    mget (stage3 svc f2 st).1.m n = some r := by
  unfold stage3 at *
  by_cases hf : f2 = []
  · rw [if_pos hf]
    exact hm
  · rw [if_neg hf] at hok ⊢
    cases hsq : stage3Query svc f2 st with
    | mk st2 res =>
      rw [hsq] at hok
      cases res with
      | error e =>
        simp at hok
      | ok m3 =>
        simp only at hok ⊢
        have hm3 : mget m3 n = some r := by
          apply stage3Query_pres svc f2 st n r i m3 hm hid
          rw [hsq]
        exact stage3Rest_pres st2 f2 m3 n r i hm3 hid hok

theorem stage3_isSome (svc : Svc) (f2 : List PyStr) (st : CascadeSt) (n : PyStr)
    (hm : (mget st.m n).isSome = true)
    (hok : (stage3 svc f2 st).2 = Except.ok ()) :
    (mget (stage3 svc f2 st).1.m n).isSome = true := by
  unfold stage3 at *
  by_cases hf : f2 = []
  · rw [if_pos hf]
    exact hm
  · rw [if_neg hf] at hok ⊢
    cases hsq : stage3Query svc f2 st with
    | mk st2 res =>
      rw [hsq] at hok
      cases res with
      | error e =>
        simp at hok
      | ok m3 =>
        simp only at hok ⊢
        have hm3 : (mget m3 n).isSome = true := by
          apply stage3Query_isSome svc f2 st n m3 hm
          rw [hsq]
        exact stage3Rest_isSome st2 f2 m3 n hm3 hok

theorem st1Of_nil (svc : Svc) : st1Of svc [] = initSt := by
  rfl

theorem stage2_ok_isSome (svc : Svc) (f : List PyStr) (st st2 : CascadeSt)
    (f2 : List PyStr) (n : PyStr) (hn : n ∈ f)
    (h : stage2 svc f st = (st2, Except.ok f2)) :
    (mget st2.m n).isSome = true := by
  unfold stage2 at h
  by_cases hf : f = []
  · subst hf
    simp at hn
  · rw [if_neg hf] at h
    simp only at h
    have h1 := congrArg Prod.fst h
    have h2 := congrArg Prod.snd h
    simp only at h1 h2
    subst h1
    exact recomputeFailed_all_isSome f _ f2 h2 n hn

theorem runCascade_pres (svc : Svc) (names : List PyStr) (n : PyStr)
    (r : ResRecord) (i : Nat) (mF : ResMap)
    (hm : mget (st1Of svc names).m n = some r) (hid : r.ottId = some i)
    (hrun : (runCascade svc names).2 = Except.ok mF) :
    mget mF n = some r := by
  by_cases hnil : names = []
  · subst hnil
    rw [st1Of_nil] at hm
    simp [initSt, mget] at hm
  · unfold runCascade at hrun
    rw [if_neg hnil] at hrun
    simp only at hrun
    cases h2 : stage2 svc (failedOf (st1Of svc names).m names) (st1Of svc names) with
    | mk st2 res2 =>
      rw [h2] at hrun
      cases res2 with
      | error e => simp at hrun
      | ok failed2 =>
        simp only at hrun
        have hpres2 := stage2_pres svc (failedOf (st1Of svc names).m names)
          (st1Of svc names) n r i hm hid
        rw [h2] at hpres2
        have hst2 : mget st2.m n = some r := hpres2.1
        cases h3 : stage3 svc failed2 st2 with
        | mk st3 res3 =>
          rw [h3] at hrun
          cases res3 with
          | error e => simp at hrun
          | ok u =>
            cases u
            simp only at hrun
            have hok3 : (stage3 svc failed2 st2).2 = Except.ok () := by
              rw [h3]
            have hst3 : mget st3.m n = some r := by
              have := stage3_pres svc failed2 st2 n r i hst2 hid hok3
              rw [h3] at this
              exact this
            have hne : st3.m ≠ [] := by
              apply mget_isSome_ne_nil st3.m n
              rw [hst3]
              rfl
            rw [if_neg hne] at hrun
            cases hrun
            exact fixupLoop_pres names st3.m n r i hst3 hid

theorem runCascade_complete (svc : Svc) (names : List PyStr) (n : PyStr) (mF : ResMap)
    (hrun : (runCascade svc names).2 = Except.ok mF) (hn : n ∈ names) :
    (mget mF n).isSome = true := by
  have hnil : names ≠ [] := List.ne_nil_of_mem hn
  unfold runCascade at hrun
  rw [if_neg hnil] at hrun
  simp only at hrun
  cases h2 : stage2 svc (failedOf (st1Of svc names).m names) (st1Of svc names) with
  | mk st2 res2 =>
    rw [h2] at hrun
    cases res2 with
    | error e => simp at hrun
    | ok failed2 =>
      simp only at hrun
      have hst2 : (mget st2.m n).isSome = true := by
        by_cases hfn : n ∈ failedOf (st1Of svc names).m names
        · exact stage2_ok_isSome svc _ _ st2 failed2 n hfn h2
        · obtain ⟨r, i, hm, hid⟩ :=
            failedOf_not_mem_resolved (st1Of svc names).m names n hn hfn
          have hpres2 := stage2_pres svc (failedOf (st1Of svc names).m names)
            (st1Of svc names) n r i hm hid
          rw [h2] at hpres2
          rw [hpres2.1]
          rfl
      cases h3 : stage3 svc failed2 st2 with
      | mk st3 res3 =>
        rw [h3] at hrun
        cases res3 with
        | error e => simp at hrun
        | ok u =>
          cases u
          simp only at hrun
          have hok3 : (stage3 svc failed2 st2).2 = Except.ok () := by
            rw [h3]
          have hst3 : (mget st3.m n).isSome = true := by
            have := stage3_isSome svc failed2 st2 n hst2 hok3
            rw [h3] at this
            exact this
          have hne : st3.m ≠ [] := mget_isSome_ne_nil st3.m n hst3
          rw [if_neg hne] at hrun
          cases hrun
          exact fixupLoop_isSome names st3.m n hst3

theorem dropLead_idem (l : PyStr) : dropLead (dropLead l) = dropLead l := by
  induction l with
  | nil => rfl
  | cons c rest ih =>
    by_cases hc : pySpace c
    · simp only [dropLead, List.dropWhile_cons, hc, if_true] at ih ⊢
      exact ih
    · simp only [dropLead, List.dropWhile_cons, hc] at ih ⊢
      simp [hc]

theorem dropTrail_cons_eq (c : Char) (rest : PyStr) :
    dropTrail (c :: rest) =
      match dropTrail rest with
      | [] => if pySpace c then [] else [c]
      | r => c :: r := rfl

theorem dropTrail_idem (l : PyStr) : dropTrail (dropTrail l) = dropTrail l := by
  induction l with
  | nil => rfl
  | cons c rest ih =>
    rw [dropTrail_cons_eq]
    cases hd : dropTrail rest with
    | nil =>
      by_cases hc : pySpace c
      · rw [if_pos hc]
        rfl
      · rw [if_neg hc]
        simp [dropTrail_cons_eq, dropTrail, hc]
    | cons y ys =>
      simp only
      have h2 : dropTrail (y :: ys) = y :: ys := by
        rw [← hd, ih]
      rw [dropTrail_cons_eq, h2]

theorem length_dropWhile_le_py (l : List Char) :
    (List.dropWhile pySpace l).length ≤ l.length := by
  induction l with
  | nil => simp
  | cons a rest ih =>
    rw [List.dropWhile_cons]
    by_cases ha : pySpace a
    · rw [if_pos ha]
      exact Nat.le_succ_of_le ih
    · rw [if_neg ha]

theorem dropLead_fix (l : PyStr) (h : dropLead l = l) :
    dropLead (dropTrail l) = dropTrail l := by
  cases l with
  | nil => rfl
  | cons c rest =>
    have hc : pySpace c = false := by
      by_contra hcc
      rw [Bool.not_eq_false] at hcc
      unfold dropLead at h
      rw [List.dropWhile_cons, if_pos hcc] at h
      have hlen := congrArg List.length h
      have hle := length_dropWhile_le_py rest
      simp only [List.length_cons] at hlen
      omega
    rw [dropTrail_cons_eq]
    cases hd : dropTrail rest with
    | nil =>
      rw [hc]
      simp [dropLead, List.dropWhile_cons, hc]
    | cons y ys =>
      simp only
      simp [dropLead, List.dropWhile_cons, hc]

theorem stripL_idem (l : PyStr) : stripL (stripL l) = stripL l := by
  unfold stripL
  rw [dropLead_fix (dropLead l) (dropLead_idem l), dropTrail_idem]

theorem dropLead_head_not_space (l : PyStr) (c : Char)
    (h : (dropLead l).head? = some c) : pySpace c = false := by
  induction l with
  | nil => simp [dropLead] at h
  | cons a rest ih =>
    by_cases ha : pySpace a
    · rw [dropLead, List.dropWhile_cons, if_pos ha] at h
      exact ih h
    · rw [dropLead, List.dropWhile_cons, if_neg ha] at h
      simp only [List.head?_cons, Option.some.injEq] at h
      subst h
      simpa using ha

theorem dropTrail_head (l : PyStr) (c : Char)
    (h : (dropTrail l).head? = some c) : l.head? = some c := by
  cases l with
  | nil => simp [dropTrail] at h
  | cons a rest =>
    rw [dropTrail_cons_eq] at h
    cases hd : dropTrail rest with
    | nil =>
      rw [hd] at h
      by_cases ha : pySpace a
      · rw [if_pos ha] at h
        simp at h
      · rw [if_neg ha] at h
        simpa using h
    | cons y ys =>
      rw [hd] at h
      simpa using h

theorem dropTrail_last_not_space (l : PyStr) (c : Char)
    (h : (dropTrail l).getLast? = some c) : pySpace c = false := by
  induction l with
  | nil => simp [dropTrail] at h
  | cons a rest ih =>
    rw [dropTrail_cons_eq] at h
    cases hd : dropTrail rest with
    | nil =>
      rw [hd] at h
      by_cases ha : pySpace a
      · rw [if_pos ha] at h
        simp at h
      · rw [if_neg ha] at h
        simp only [List.getLast?_singleton, Option.some.injEq] at h
        subst h
        simpa using ha
    | cons y ys =>
      rw [hd] at h
      rw [List.getLast?_cons_cons] at h
      apply ih
      rw [hd]
      exact h

theorem stripL_head_not_space (l : PyStr) (c : Char)
    (h : (stripL l).head? = some c) : pySpace c = false := by
  unfold stripL at h
  exact dropLead_head_not_space l c (dropTrail_head (dropLead l) c h)

theorem stripL_last_not_space (l : PyStr) (c : Char)
    (h : (stripL l).getLast? = some c) : pySpace c = false := by
  unfold stripL at h
  exact dropTrail_last_not_space (dropLead l) c h

theorem cleanStr_stripL_fix (s : PyStr) : stripL (cleanStr s) = cleanStr s := by
  unfold cleanStr
  rw [stripL_idem]

theorem cleanAccStep_pos (acc : List (PyStr × PyStr)) (n : PyStr)
    (hif : cleanStr n ≠ [] ∧ cleanStr n ≠ n) :
    cleanAccStep acc n = acc ++ [(cleanStr n, n)] := by
  simp only [cleanAccStep, clean_scientific_name]
  rw [if_pos hif]

theorem cleanAccStep_neg (acc : List (PyStr × PyStr)) (n : PyStr)
    (hif : ¬(cleanStr n ≠ [] ∧ cleanStr n ≠ n)) :
    cleanAccStep acc n = acc := by
  simp only [cleanAccStep, clean_scientific_name]
  rw [if_neg hif]

theorem cleanPairOf_pos (n : PyStr) (hif : cleanStr n ≠ [] ∧ cleanStr n ≠ n) :
    cleanPairOf n = some (cleanStr n, n) := by
  simp only [cleanPairOf, clean_scientific_name]
  rw [if_pos hif]

theorem cleanPairOf_neg (n : PyStr) (hif : ¬(cleanStr n ≠ [] ∧ cleanStr n ≠ n)) :
    cleanPairOf n = none := by
  simp only [cleanPairOf, clean_scientific_name]
  rw [if_neg hif]

theorem cleanedPairs_aux (l : List PyStr) (acc : List (PyStr × PyStr)) :
    l.foldl cleanAccStep acc = acc ++ l.filterMap cleanPairOf := by
  induction l generalizing acc with
  | nil => simp
  | cons n rest ih =>
    rw [List.foldl_cons]
    by_cases hif : cleanStr n ≠ [] ∧ cleanStr n ≠ n
    · rw [cleanAccStep_pos acc n hif, List.filterMap_cons_some (cleanPairOf_pos n hif), ih]
      simp
    · rw [cleanAccStep_neg acc n hif, List.filterMap_cons_none (cleanPairOf_neg n hif), ih]

theorem cleanedPairsList_eq (l : List PyStr) :
    cleanedPairsList l = l.filterMap cleanPairOf := by
  unfold cleanedPairsList
  rw [cleanedPairs_aux]
  rfl

theorem filterMap_reverse_py (f : PyStr → Option (PyStr × PyStr)) (l : List PyStr) :
    (l.filterMap f).reverse = l.reverse.filterMap f := by
  induction l with
  | nil => rfl
  | cons a rest ih =>
    rw [List.reverse_cons, List.filterMap_append]
    cases hf : f a with
    | none =>
      rw [List.filterMap_cons_none hf, ih, List.filterMap_cons_none hf,
        List.filterMap_nil, List.append_nil]
    | some p =>
      rw [List.filterMap_cons_some hf, List.reverse_cons, ih,
        List.filterMap_cons_some hf, List.filterMap_nil]

theorem producesCleaned_pos (c n : PyStr) (h1 : cleanStr n ≠ []) (h2 : cleanStr n ≠ n)
    (h3 : cleanStr n = c) : producesCleaned c n = true := by
  simp only [producesCleaned, clean_scientific_name]
  rw [if_pos ⟨h1, h2, h3⟩]

theorem producesCleaned_neg (c n : PyStr)
    (h : ¬(cleanStr n ≠ [] ∧ cleanStr n ≠ n ∧ cleanStr n = c)) :
    producesCleaned c n = false := by
  simp only [producesCleaned, clean_scientific_name]
  rw [if_neg h]

theorem lookupA_filterMap (l : List PyStr) (c : PyStr) :
    lookupA (l.filterMap cleanPairOf) c = l.find? (producesCleaned c) := by
  induction l with
  | nil => rfl
  | cons n rest ih =>
    by_cases hif : cleanStr n ≠ [] ∧ cleanStr n ≠ n
    · rw [List.filterMap_cons_some (cleanPairOf_pos n hif)]
      by_cases hcc : cleanStr n = c
      · rw [List.find?_cons_of_pos _ (producesCleaned_pos c n hif.1 hif.2 hcc)]
        simp [lookupA, hcc]
      · have hp : producesCleaned c n = false := by
          apply producesCleaned_neg
          intro hcon
          exact hcc hcon.2.2
        rw [List.find?_cons_of_neg _ (by simp [hp])]
        simp only [lookupA, hcc, if_false]
        exact ih
    · rw [List.filterMap_cons_none (cleanPairOf_neg n hif)]
      have hp : producesCleaned c n = false := by
        apply producesCleaned_neg
        intro hcon
        exact hif ⟨hcon.1, hcon.2.1⟩
      rw [List.find?_cons_of_neg _ (by simp [hp])]
      exact ih

theorem lookupA_cleaned_names_map (failed : List PyStr) (c : PyStr) :
    lookupA (cleaned_names_map failed) c = failed.reverse.find? (producesCleaned c) := by
  unfold cleaned_names_map
  rw [cleanedPairsList_eq, filterMap_reverse_py, lookupA_filterMap]

theorem countN_setListGo (fuel : Nat) (l : List PyStr) (c : PyStr)
    (hf : l.length ≤ fuel) :
    countN c (setListGo fuel l) = if c ∈ l then 1 else 0 := by
  induction fuel generalizing l with
  | zero =>
    cases l with
    | nil => simp [setListGo, countN]
    | cons a rest => simp at hf
  | succ fuel ih =>
    cases l with
    | nil => simp [setListGo, countN]
    | cons a rest =>
      simp only [setListGo, countN]
      have hlen : (rest.filter (fun x => decide (x ≠ a))).length ≤ fuel := by
        have h1 := List.length_filter_le (fun x => decide (x ≠ a)) rest
        simp only [List.length_cons] at hf
        omega
      rw [ih _ hlen]
      have hmemf : (c ∈ rest.filter (fun x => decide (x ≠ a))) ↔ (c ∈ rest ∧ c ≠ a) := by
        rw [List.mem_filter]
        simp
      by_cases hca : a = c
      · subst hca
        have : ¬ (a ∈ rest.filter (fun x => decide (x ≠ a))) := by
          rw [hmemf]
          simp
        rw [if_neg this]
        simp
      · have hca2 : c ≠ a := fun h => hca h.symm
        simp only [hca, if_false, Nat.zero_add]
        by_cases hcr : c ∈ rest
        · rw [if_pos (hmemf.mpr ⟨hcr, hca2⟩)]
          simp [hcr]
        · have : ¬ (c ∈ rest.filter (fun x => decide (x ≠ a))) := by
            rw [hmemf]
            intro hc
            exact hcr hc.1
          rw [if_neg this]
          have : ¬ c ∈ a :: rest := by
            simp [hca2, hcr]
          simp [this, hcr, hca2]

theorem countN_setList (l : List PyStr) (c : PyStr) :
    countN c (setList l) = if c ∈ l then 1 else 0 :=
  countN_setListGo l.length l c (Nat.le_refl _)

theorem chunksGo_length_le (fuel : Nat) (l : List PyStr) (b : List PyStr)
    (hb : b ∈ chunksGo fuel l) : b.length ≤ BATCH_SIZE := by
  induction fuel generalizing l with
  | zero =>
    cases l with
    | nil => simp [chunksGo] at hb
    | cons a rest => simp [chunksGo] at hb
  | succ fuel ih =>
    cases l with
    | nil => simp [chunksGo] at hb
    | cons a rest =>
      simp only [chunksGo, List.mem_cons] at hb
      cases hb with
      | inl he =>
        subst he
        simp [List.length_take]
      | inr hr => exact ih _ hr

theorem stage1Step_calls (svc : Svc) (st : CascadeSt) (b : List PyStr)
    (q : List PyStr) (hq : q ∈ (stage1Step svc st b).calls) :
    q ∈ st.calls ∨ q = b := by
  unfold stage1Step at hq
  cases b with
  | nil =>
    simp only [query_ott_tnrs] at hq
    exact Or.inl hq
  | cons x rest =>
    simp only [query_ott_tnrs] at hq
    rw [List.mem_append] at hq
    cases hq with
    | inl h => exact Or.inl h
    | inr h =>
      simp only [List.mem_singleton] at h
      exact Or.inr h

theorem stage1_calls_bounded_aux (svc : Svc) (bs : List (List PyStr)) (st : CascadeSt)
    (hst : ∀ q ∈ st.calls, q.length ≤ BATCH_SIZE)
    (hbs : ∀ b ∈ bs, b.length ≤ BATCH_SIZE) :
    ∀ q ∈ (bs.foldl (stage1Step svc) st).calls, q.length ≤ BATCH_SIZE := by
  induction bs generalizing st with
  | nil => simpa using hst
  | cons b rest ih =>
    simp only [List.foldl_cons]
    apply ih
    · intro q hq
      cases stage1Step_calls svc st b q hq with
      | inl h => exact hst q h
      | inr h =>
        subst h
        exact hbs q (List.mem_cons_self q rest)
    · intro b2 hb2
      exact hbs b2 (List.mem_cons_of_mem b hb2)

theorem stage1_calls_bounded (svc : Svc) (names : List PyStr) :
    ∀ q ∈ (st1Of svc names).calls, q.length ≤ BATCH_SIZE := by
  unfold st1Of stage1
  apply stage1_calls_bounded_aux
  · intro q hq
    simp [initSt] at hq
  · intro b hb
    exact chunksGo_length_le names.length names b hb

theorem takeWhile_prefix_space (t r : PyStr) (ht : ¬ ' ' ∈ t) :
    (t ++ ' ' :: r).takeWhile (fun c => decide (c ≠ ' ')) = t := by
  induction t with
  | nil => simp
  | cons a rest ih =>
    have ha : a ≠ ' ' := by
      intro he
      exact ht (he ▸ List.mem_cons_self a rest)
    have hrest : ¬ ' ' ∈ rest := fun hm => ht (List.mem_cons_of_mem a hm)
    have hpa : decide (a ≠ ' ') = true := by
      simp [ha]
    rw [List.cons_append, List.takeWhile_cons]
    simp only [hpa, if_true, List.cons.injEq, true_and]
    exact ih hrest

/-- Claim C1, counterexample: the claim asserts that after the cascade
every distinct input name has exactly one resolution record for every
sequence of service responses, including failed batches.  It is false:
when the single stage-1 batch for the name Ab fails and the name's
cleaned form equals the name (so stage 2 issues no query), the
failure-set recomputation of line 145 of src/code.py subscripts a
dictionary that has no entry for the name, raising KeyError; the run
aborts with no resolution record for Ab. -/
theorem c1_counterexample_crash :
    runCascade svcDown [nAb] = ([[nAb]], Except.error ()) := rfl

/-- Claim C1, amended: whenever the cascade runs to completion, every
distinct input name has a resolution record in the final dictionary
(and, the dictionary being keyed by name, at most one); completion
itself is not guaranteed when batches fail. -/
theorem c1_amended_every_name_has_record (svc : Svc) (names : List PyStr)
    (mF : ResMap) (n : PyStr)
    (hrun : (runCascade svc names).2 = Except.ok mF) (hn : n ∈ names) :
    (mget mF n).isSome = true :=
  runCascade_complete svc names n mF hrun hn

/-- Witness for the amended claim C1 at a concrete zero-candidate run. -/
theorem c1_amended_witness :
    (runCascade svcEcho0 [nAb]).2 = Except.ok mapC1W ∧ nAb ∈ [nAb] ∧
      (mget mapC1W nAb).isSome = true :=
  ⟨rfl, by decide,
    c1_amended_every_name_has_record svcEcho0 [nAb] mapC1W nAb rfl (by decide)⟩

/-- Claim C2: the claim asserts that a failed service call is treated
exactly like a zero-candidate response for every name of the batch,
with processing continuing and the run never aborting.  The code
instead leaves the batch's names without any record, and the stage-2
failure-set recomputation (line 145 of src/code.py) then raises
KeyError: here the run on the single name Ab-space-Xx issues the
stage-1 batch call and the stage-2 cleaned call (both failing), then
aborts. -/
theorem c2_run_aborts_on_service_failure :
    runCascade svcDown [nAbXx] = ([[nAbXx], [nAb]], Except.error ()) := rfl

/-- Claim C3: once a name's record carries a non-absent OTT ID, no
later processing replaces or modifies it: the per-item update of
process_tnrs_results, the genus-stage target loop and item loop, the
terminal-label pass (which only ever runs over still-failed names,
never the resolved name), and the final fix-up all preserve the record
exactly, and consequently a record resolved after stage 1 survives
unchanged into the final dictionary of any completed run. -/
theorem c3_monotone_first_success_wins (svc : Svc) (names : List PyStr)
    (n : PyStr) (r : ResRecord) (i : Nat) :
    (∀ resp m lvl qm, mget m n = some r → r.ottId = some i →
        mget (process_tnrs_results resp m lvl qm) n = some r)
    ∧ (∀ g cands m ts m2, mget m n = some r → r.ottId = some i →
        applyGenusTargets g cands m ts = Except.ok m2 → mget m2 n = some r)
    ∧ (∀ gmap m items m2, mget m n = some r → r.ottId = some i →
        processGenusItems gmap m items = Except.ok m2 → mget m2 n = some r)
    ∧ (∀ m ns m2, n ∉ ns → finalizeNoMatch m ns = Except.ok m2 →
        mget m2 n = mget m n)
    ∧ (∀ m ns, mget m n = some r → r.ottId = some i →
        mget (fixupLoop m ns) n = some r)
    ∧ (∀ mF, mget (st1Of svc names).m n = some r → r.ottId = some i →
        (runCascade svc names).2 = Except.ok mF → mget mF n = some r) := by
  refine ⟨?_, ?_, ?_, ?_, ?_, ?_⟩
  · intro resp m lvl qm hm hid
    exact process_results_pres resp m lvl qm n r i hm hid
  · intro g cands m ts m2 hm hid hrun
    exact applyGenusTargets_pres g cands ts m m2 n r i hm hid hrun
  · intro gmap m items m2 hm hid hrun
    exact processGenusItems_pres gmap items m m2 n r i hm hid hrun
  · intro m ns m2 hn hrun
    exact finalizeNoMatch_frame ns m m2 n hn hrun
  · intro m ns hm hid
    exact fixupLoop_pres ns m n r i hm hid
  · intro mF hm hid hrun
    exact runCascade_pres svc names n r i mF hm hid hrun

/-- Witness for claim C3 at a concrete run where Ab is matched at
stage 1 with OTT ID 5 and the final dictionary holds that exact
record. -/
theorem c3_witness :
    mget (st1Of svcW3 [nAb]).m nAb = some recW3 ∧ recW3.ottId = some 5 ∧
      (runCascade svcW3 [nAb]).2 = Except.ok mapW3 ∧ mget mapW3 nAb = some recW3 :=
  ⟨by decide, rfl, rfl,
    (c3_monotone_first_success_wins svcW3 [nAb] nAb recW3 5).2.2.2.2.2
      mapW3 (by decide) rfl rfl⟩

/-- Claim C4, counterexample: the name-cleaning function is not
idempotent.  Each application strips one trailing capitalised token, so
on the three-token name Aa-Bb-Cc one cleaning yields Aa-Bb and a second
cleaning yields Aa. -/
theorem c4_counterexample_not_idempotent :
    (clean_scientific_name (NameInput.str sAaBbCc)).bind
        (fun c => clean_scientific_name (NameInput.str c))
      ≠ clean_scientific_name (NameInput.str sAaBbCc) := by
  decide

/-- Claim C4, amended: cleaning an already-clean name is idempotent
exactly when the cleaned result carries no further trailing authority
token, that is, when the authority substitution fixes the cleaned
string; in general each application may strip one more token. -/
theorem c4_amended_idempotent_when_fixed (s : PyStr)
    (h : subAuth (cleanStr s) = cleanStr s) :
    (clean_scientific_name (NameInput.str s)).bind
        (fun c => clean_scientific_name (NameInput.str c))
      = clean_scientific_name (NameInput.str s) := by
  have hfix : cleanStr (cleanStr s) = cleanStr s := by
    calc cleanStr (cleanStr s)
        = stripL (subAuth (stripL (cleanStr s))) := rfl
      _ = stripL (subAuth (cleanStr s)) := by rw [cleanStr_stripL_fix]
      _ = stripL (cleanStr s) := by rw [h]
      _ = cleanStr s := cleanStr_stripL_fix s
  simp [clean_scientific_name, hfix]

/-- Witness for the amended claim C4 on a classical authority-bearing
name whose cleaned form has no further trailing token. -/
theorem c4_witness :
    subAuth (cleanStr sRosa) = cleanStr sRosa ∧
      (clean_scientific_name (NameInput.str sRosa)).bind
          (fun c => clean_scientific_name (NameInput.str c))
        = clean_scientific_name (NameInput.str sRosa) :=
  ⟨by decide, c4_amended_idempotent_when_fixed sRosa (by decide)⟩

/-- Claim C5, counterexample: two distinct failed names with the same
cleaned form Aa do get a single stage-2 query, but the result is not
fanned out to both: the cleaned-names dictionary maps the cleaned form
to the last name that produced it, so only Aa-Yy receives the stage-2
hit (OTT ID 7) while Aa-Xx keeps an absent OTT ID and ends as a final
no-match. -/
theorem c5_counterexample_no_fanout :
    (runCascade svc5 [nAaXx5, nAaYy5]).2 = Except.ok map5 ∧
    mget map5 nAaXx5 = some rec5fail ∧
    rec5fail.ottId = none ∧
    mget map5 nAaYy5 = some (recordFromMatch mc7 aaTok MatchLevel.speciesCleaned) ∧
    (recordFromMatch mc7 aaTok MatchLevel.speciesCleaned).ottId = some 7 ∧
    cleanStr nAaXx5 = aaTok ∧ cleanStr nAaYy5 = aaTok ∧ nAaXx5 ≠ nAaYy5 := by
  refine ⟨?_, by decide, rfl, by decide, rfl, by decide, by decide, by decide⟩
  rfl

/-- Claim C5, amended: the stage-2 query list contains each distinct
cleaned form exactly once (deduplication holds), but the query map used
to fan results back maps each cleaned form only to the most recent
failed name that produced it, so only that single original name can
receive the query's outcome. -/
theorem c5_amended_dedup_and_last_producer (failed : List PyStr) (c : PyStr) :
    countN c (setList ((cleanedPairsList failed).map Prod.fst))
      = (if c ∈ (cleanedPairsList failed).map Prod.fst then 1 else 0)
    ∧ lookupA (cleaned_names_map failed) c
      = failed.reverse.find? (producesCleaned c) :=
  ⟨countN_setList _ c, lookupA_cleaned_names_map failed c⟩

/-- Claim C6: a genus-stage candidate for an unresolved name is
recorded as a match exactly when its taxon rank, lowercased, is in the
allow-list of genus, family, order, class, phylum and kingdom; a
species-rank candidate is rejected and leaves the dictionary untouched,
a family-rank candidate is accepted, and the accepted record carries
the genus match level and the genus string as its match query. -/
theorem c6_genus_rank_gate (m : ResMap) (g t : PyStr) (mc : MatchCand)
    (cands : List MatchCand) (r : ResRecord)
    (hm : mget m t = some r) (hid : r.ottId = none) :
    applyGenusTargets g (mc :: cands) m [t]
      = Except.ok (if rankOkB mc.taxon then mset m t (genusRecordOf mc g) else m)
    ∧ (rankOkB mc.taxon = true ↔ lowerName (mc.taxon.rank.getD []) ∈ rankAllowList)
    ∧ (lowerName (mc.taxon.rank.getD []) = "species".toList → rankOkB mc.taxon = false)
    ∧ (lowerName (mc.taxon.rank.getD []) = "family".toList → rankOkB mc.taxon = true)
    ∧ (genusRecordOf mc g).matchLevel = MatchLevel.genus
    ∧ (genusRecordOf mc g).matchQuery = g := by
  refine ⟨?_, ?_, ?_, ?_, rfl, rfl⟩
  · simp [applyGenusTargets, hm, hid]
  · constructor
    · intro h
      exact of_decide_eq_true h
    · intro h
      exact decide_eq_true h
  · intro h
    simp only [rankOkB, h]
    decide
  · intro h
    simp only [rankOkB, h]
    decide

/-- Witness for claim C6 with a family-rank candidate accepted for the
unresolved name t6. -/
theorem c6_witness :
    mget m6 t6 = some (placeholderRecord t6) ∧ (placeholderRecord t6).ottId = none ∧
    applyGenusTargets g6 [mcFam] m6 [t6]
      = Except.ok (if rankOkB mcFam.taxon then mset m6 t6 (genusRecordOf mcFam g6) else m6) ∧
    rankOkB mcFam.taxon = true :=
  ⟨by decide, rfl,
    (c6_genus_rank_gate m6 g6 t6 mcFam [] (placeholderRecord t6) (by decide) rfl).1,
    (c6_genus_rank_gate m6 g6 t6 mcFam [] (placeholderRecord t6) (by decide) rfl).2.2.2.1 (by decide)⟩

/-- Claim C7, counterexample: the claim says genus extraction returns
the first whitespace-delimited token of any string containing a space;
on the string space-A-a, which contains a space, the code returns the
empty prefix before the first space while the first whitespace-
delimited token is Aa. -/
theorem c7_counterexample_not_first_token :
    (' ' ∈ spAa) ∧ extract_genus (NameInput.str spAa) = some [] ∧
    specFirstToken spAa = aaTok ∧ ([] : PyStr) ≠ aaTok := by
  refine ⟨by decide, rfl, rfl, by decide⟩

/-- Claim C7, amended: genus extraction returns absent for non-string
input and exactly for strings containing no space character (hence for
single-token strings); for a string containing a space it returns the
prefix before the first space, which equals the first whitespace-
delimited token whenever the string starts with a space-free token
followed by a space. -/
theorem c7_amended_prefix_before_first_space (s t r : PyStr) :
    (extract_genus NameInput.other = none)
    ∧ (extract_genus (NameInput.str s) = none ↔ ¬ ' ' ∈ s)
    ∧ (' ' ∈ s → extract_genus (NameInput.str s)
        = some (s.takeWhile (fun c => decide (c ≠ ' '))))
    ∧ (¬ ' ' ∈ t → extract_genus (NameInput.str (t ++ ' ' :: r)) = some t) := by
  refine ⟨rfl, ?_, ?_, ?_⟩
  · by_cases h : ' ' ∈ s
    · simp [extract_genus, h]
    · simp [extract_genus, h]
  · intro h
    simp [extract_genus, h]
  · intro ht
    have hmem : ' ' ∈ t ++ ' ' :: r := by simp
    simp only [extract_genus, hmem, if_true]
    rw [takeWhile_prefix_space t r ht]

/-- Witness for the amended claim C7 on the two-token name Ab-space-Xx. -/
theorem c7_witness :
    extract_genus NameInput.other = none
    ∧ (extract_genus (NameInput.str nAbXx) = none ↔ ¬ ' ' ∈ nAbXx)
    ∧ extract_genus (NameInput.str nAbXx)
        = some (nAbXx.takeWhile (fun c => decide (c ≠ ' ')))
    ∧ extract_genus (NameInput.str (nAb ++ ' ' :: sXx)) = some nAb :=
  ⟨(c7_amended_prefix_before_first_space nAbXx nAb sXx).1,
    (c7_amended_prefix_before_first_space nAbXx nAb sXx).2.1,
    (c7_amended_prefix_before_first_space nAbXx nAb sXx).2.2.1 (by decide),
    (c7_amended_prefix_before_first_space nAbXx nAb sXx).2.2.2 (by decide)⟩

/-- Claim C8, counterexample: only stage 1 batches its queries.  With
201 names that all fail stage 1, the stage-2 cleaned query is issued as
a single call carrying all 201 distinct cleaned names, exceeding the
configured BATCH_SIZE of 200. -/
theorem c8_counterexample_unbatched_stage2 :
    ((runCascade svcDown names201).1.any
      (fun q => decide (BATCH_SIZE < q.length))) = true := by
  rfl

/-- Claim C8, amended: the batch-size bound holds for stage 1 only:
every call stage 1 issues carries at most BATCH_SIZE names; the stage-2
and stage-3 queries are issued unbatched and may exceed the limit. -/
theorem c8_amended_stage1_calls_bounded (svc : Svc) (names : List PyStr) :
    ∀ q ∈ (st1Of svc names).calls, q.length ≤ BATCH_SIZE :=
  stage1_calls_bounded svc names

/-- Witness for the amended claim C8 on a concrete single-batch run. -/
theorem c8_witness :
    [nAb] ∈ (st1Of svcEcho0 [nAb]).calls ∧ ([nAb] : List PyStr).length ≤ BATCH_SIZE :=
  ⟨by decide, c8_amended_stage1_calls_bounded svcEcho0 [nAb] [nAb] (by decide)⟩

/-- Claim C9: when the genus stage sees zero candidates for a name
whose record still has an absent OTT ID, only the match-level field of
the record changes, to the genus-failed label; every other field,
including the match query recorded at the earlier stage, is
unchanged. -/
theorem c9_genus_failed_only_level_changes (m : ResMap) (g t : PyStr) (r : ResRecord)
    (hm : mget m t = some r) (hid : r.ottId = none) :
    applyGenusTargets g [] m [t] = Except.ok (mset m t (genusFailedUpdate r))
    ∧ (genusFailedUpdate r).matchLevel = MatchLevel.noMatchFinalGenusFailed
    ∧ (genusFailedUpdate r).primaryMatchedName = r.primaryMatchedName
    ∧ (genusFailedUpdate r).synonymsField = r.synonymsField
    ∧ (genusFailedUpdate r).ottId = r.ottId
    ∧ (genusFailedUpdate r).rank = r.rank
    ∧ (genusFailedUpdate r).matchQuery = r.matchQuery
    ∧ (genusFailedUpdate r).approximateMatch = r.approximateMatch
    ∧ (genusFailedUpdate r).isSynonymInput = r.isSynonymInput := by
  refine ⟨?_, rfl, rfl, rfl, rfl, rfl, rfl, rfl, rfl⟩
  simp [applyGenusTargets, hm, hid, genusFailedUpdate]

/-- Witness for claim C9 on the unresolved name t9. -/
theorem c9_witness :
    mget m9 t9 = some (placeholderRecord t9) ∧ (placeholderRecord t9).ottId = none ∧
    applyGenusTargets g9 [] m9 [t9]
      = Except.ok (mset m9 t9 (genusFailedUpdate (placeholderRecord t9))) ∧
    (genusFailedUpdate (placeholderRecord t9)).matchQuery = (placeholderRecord t9).matchQuery :=
  ⟨by decide, rfl,
    (c9_genus_failed_only_level_changes m9 g9 t9 (placeholderRecord t9) (by decide) rfl).1,
    (c9_genus_failed_only_level_changes m9 g9 t9 (placeholderRecord t9) (by decide) rfl).2.2.2.2.2.2.1⟩

/-- Claim C10: on every string input the cleaning function returns a
string (never absent) whose first and last characters, when they exist,
are not whitespace; it returns absent exactly for non-string input. -/
theorem c10_clean_total_and_stripped (s : PyStr) (v : NameInput) :
    clean_scientific_name (NameInput.str s) = some (cleanStr s)
    ∧ (∀ c, (cleanStr s).head? = some c → pySpace c = false)
    ∧ (∀ c, (cleanStr s).getLast? = some c → pySpace c = false)
    ∧ (clean_scientific_name v = none ↔ v = NameInput.other) := by
  refine ⟨rfl, ?_, ?_, ?_⟩
  · intro c h
    exact stripL_head_not_space (subAuth (stripL s)) c h
  · intro c h
    exact stripL_last_not_space (subAuth (stripL s)) c h
  · cases v with
    | str s2 => simp [clean_scientific_name]
    | other => simp [clean_scientific_name]

/-- Witness for claim C10 on the plain word Ab and a non-string input. -/
theorem c10_witness :
    clean_scientific_name (NameInput.str sW10) = some (cleanStr sW10)
    ∧ (cleanStr sW10).head? = some 'A'
    ∧ pySpace 'A' = false
    ∧ clean_scientific_name NameInput.other = none :=
  ⟨(c10_clean_total_and_stripped sW10 NameInput.other).1,
    by decide,
    (c10_clean_total_and_stripped sW10 NameInput.other).2.1 'A' (by decide),
    ((c10_clean_total_and_stripped sW10 NameInput.other).2.2.2).mpr rfl⟩
